/-
Verification of the velocity package manager core against its specification.

The definitions below are a shallow embedding of the Rust sources:
  src/resolver/version.rs   — SemVer versions, constraint parsing and matching
  src/resolver/mod.rs       — the resolver worklist loop
  src/resolver/graph.rs     — the dependency graph with cycle detection
  src/installer/extractor.rs — tar entry path-traversal checks
  src/security/integrity.rs — integrity string verification
  src/security/supply_chain.rs — typosquat detection
  src/core/lockfile.rs      — lockfile save/load with self-integrity

Machine integers are modelled as `Nat` with explicit reduction modulo 2^32
(resp. 2^64) where the source relies on fixed-width arithmetic (the SHA
digests).  Strings are processed as `List Char`, matching byte-level `&str`
operations of the source on the ASCII inputs the theorems use.
-/
import Mathlib

namespace Velocity

set_option maxRecDepth 40000

/-! ### Character and string helpers

The Rust source operates on `&str` values with `trim`, `contains`,
`replace`, `split` and friends.  We model those operations on `List Char`.
-/

def isWhite (c : Char) : Bool := c = ' ' || c = '\t' || c = '\n' || c = '\r'

def trimLeft : List Char → List Char
  | [] => []
  | c :: cs => if isWhite c then trimLeft cs else c :: cs

def trimChars (cs : List Char) : List Char :=
  (trimLeft (trimLeft cs.reverse).reverse)

/-- `l.starts_with p` on character lists. -/
def startsWithList : List Char → List Char → Bool
  | _, [] => true
  | [], _ :: _ => false
  | c :: cs, p :: ps => c = p && startsWithList cs ps

/-- Substring containment, as Rust's `str::contains(&str)`. -/
def containsList : List Char → List Char → Bool
  | [], p => p.isEmpty
  | c :: cs, p => startsWithList (c :: cs) p || containsList cs p

/-- Remove a leading pattern, as `str::strip_prefix`; `none` if absent. -/
def dropLeading : List Char → List Char → Option (List Char)
  | s, [] => some s
  | [], _ :: _ => none
  | c :: cs, p :: ps => if c = p then dropLeading cs ps else none

/-- Split at every occurrence of a separator character. -/
def splitOnChar (sep : Char) (cs : List Char) : List (List Char) :=
  match cs with
  | [] => [[]]
  | c :: rest =>
    let r := splitOnChar sep rest
    if c = sep then [] :: r
    else match r with
      | [] => [[c]]
      | g :: gs => (c :: g) :: gs

/-- Split on a multi-character separator (used for `"||"` and `" - "`).
Structural recursion on a fuel bound (`length + 1`, never exhausted). -/
def splitOnListAux (sep : List Char) : Nat → List Char → List (List Char)
  | 0, cs => [cs]
  | fuel + 1, cs =>
    match cs with
    | [] => [[]]
    | c :: rest =>
      if sep.isEmpty then [c :: rest]
      else match dropLeading (c :: rest) sep with
        | some tail => [] :: splitOnListAux sep fuel tail
        | none =>
          match splitOnListAux sep fuel rest with
          | [] => [[c]]
          | g :: gs => (c :: g) :: gs

def splitOnList (sep cs : List Char) : List (List Char) :=
  splitOnListAux sep (cs.length + 1) cs

def splitWhitespaceList (cs : List Char) : List (List Char) :=
  (splitOnChar ' ' cs).filter (fun g => !g.isEmpty)

def digitVal (c : Char) : Nat := c.toNat - '0'.toNat

def isDigitChar (c : Char) : Bool := '0' ≤ c && c ≤ '9'

/-- Decimal parse of a nonempty all-digit character list. -/
def parseNat? (cs : List Char) : Option Nat :=
  if cs.isEmpty then none
  else if cs.all isDigitChar then
    some (cs.foldl (fun acc c => acc * 10 + digitVal c) 0)
  else none

/-! ### SemVer versions (the `semver` crate's `Version` as used by the source)

A version is `major.minor.patch` with an optional pre-release identifier
list.  Build metadata is omitted from the model: the claims under scrutiny
never involve it, and the repository's lenient parser strips it before its
first parse attempt (`parse_version`, version.rs lines 147-149).

Ordering follows SemVer precedence (the `semver` crate's `Ord`): compare
`major`, `minor`, `patch` numerically, then pre-release, where a version
*with* a pre-release sorts below the same version without one, numeric
identifiers sort below alphanumeric ones, numeric identifiers compare
numerically and alphanumeric ones lexically, and identifier lists compare
lexicographically with a strict prefix sorting first.  We realize this
ordering by an injective encoding into nested lexicographic products, and
lift `Mathlib`'s linear order along the encoding.
-/

/-- A pre-release identifier: numeric (`1`) or alphanumeric (`alpha`).
Alphanumeric identifiers are kept as character lists so lexical (ASCII)
comparison is computable. -/
inductive PreId where
  | num (n : Nat)
  | str (s : List Char)
deriving DecidableEq, Repr

/-- A SemVer version, as `semver::Version` without build metadata. -/
structure Version where
  major : Nat
  minor : Nat
  patch : Nat
  pre : List PreId := []
deriving DecidableEq, Repr

def PreId.encode : PreId → Nat ⊕ₗ List Char
  | .num n => toLex (Sum.inl n)
  | .str s => toLex (Sum.inr s)

/-- Encode a pre-release list: the empty list (a release) sorts above every
pre-release, and nonempty lists compare lexicographically. -/
def encodePre : List PreId → Bool ×ₗ List (Nat ⊕ₗ List Char)
  | [] => toLex (true, [])
  | l => toLex (false, l.map PreId.encode)

def Version.encode (v : Version) : Nat ×ₗ (Nat ×ₗ (Nat ×ₗ (Bool ×ₗ List (Nat ⊕ₗ List Char)))) :=
  toLex (v.major, toLex (v.minor, toLex (v.patch, encodePre v.pre)))

theorem preIdEncode_injective : Function.Injective PreId.encode := by
  intro a b h
  cases a <;> cases b <;> simp [PreId.encode, toLex] at h <;> simp [h]

theorem encodePre_injective : Function.Injective encodePre := by
  intro a b h
  cases a with
  | nil =>
    cases b with
    | nil => rfl
    | cons x xs => simp [encodePre, toLex] at h
  | cons x xs =>
    cases b with
    | nil => simp [encodePre, toLex] at h
    | cons y ys =>
      simp only [encodePre, toLex] at h
      have : (x :: xs).map PreId.encode = (y :: ys).map PreId.encode := by
        simpa using h
      exact List.map_injective_iff.mpr preIdEncode_injective this

theorem versionEncode_injective : Function.Injective Version.encode := by
  intro a b h
  simp only [Version.encode, toLex] at h
  obtain ⟨h1, h2, h3, h4⟩ :
      a.major = b.major ∧ a.minor = b.minor ∧ a.patch = b.patch ∧
        encodePre a.pre = encodePre b.pre := by
    simpa using h
  cases a; cases b
  simp_all
  exact encodePre_injective h4

instance : LinearOrder Version := LinearOrder.lift' Version.encode versionEncode_injective

theorem Version.le_def (a b : Version) : a ≤ b ↔ a.encode ≤ b.encode := Iff.rfl

theorem Version.lt_def (a b : Version) : a < b ↔ a.encode < b.encode := by
  rw [lt_iff_le_not_le, lt_iff_le_not_le, Version.le_def, Version.le_def]

def strOf (cs : List Char) : String := ⟨cs⟩

/-! ### Errors (src/core/error.rs, the variants the modelled core can raise) -/

inductive VError where
  | packageNotFound (name : String)
  | versionNotFound (package version : String)
  | invalidVersionConstraint (text : String)
  | circularDependency (path : String)
  | integrityCheckFailed (package expected actual : String)
  | pathTraversal (package path : String)
  | invalidLockfile
  | tomlDeserialize
  | other (msg : String)
  | fuelExhausted
deriving DecidableEq, Repr

/-! ### Version constraints (src/resolver/version.rs) -/

inductive VersionConstraint where
  | exact (v : Version)
  | caret (v : Version)
  | tilde (v : Version)
  | greaterOrEqual (v : Version)
  | greaterThan (v : Version)
  | lessOrEqual (v : Version)
  | lessThan (v : Version)
  | any
  | range (l r : VersionConstraint)
  | latest
deriving DecidableEq, Repr

/-- `VersionConstraint::matches` (version.rs lines 157-185). -/
def VersionConstraint.matches : VersionConstraint → Version → Bool
  | .exact v, version => version = v
  | .caret v, version =>
    if v.major = 0 then
      if v.minor = 0 then
        version.major = 0 ∧ version.minor = 0 ∧ version.patch = v.patch
      else
        version.major = 0 ∧ version.minor = v.minor ∧ v.patch ≤ version.patch
    else
      version.major = v.major ∧ v ≤ version
  | .tilde v, version =>
    version.major = v.major ∧ version.minor = v.minor ∧ v.patch ≤ version.patch
  | .greaterOrEqual v, version => v ≤ version
  | .greaterThan v, version => v < version
  | .lessOrEqual v, version => version ≤ v
  | .lessThan v, version => version < v
  | .any, _ => true
  | .latest, _ => true
  | .range l r, version => l.matches version && r.matches version

/-! ### Strict SemVer parsing (the `semver` crate's `Version::parse`)

Modelled from the `semver` crate (an external dependency of the source):
exactly three dot-separated decimal components without leading zeros,
an optional `-` pre-release suffix of nonempty dot-separated alphanumeric
identifiers, and an optional `+` build suffix (validated, then discarded
since the model omits build metadata). -/

def isIdentChar (c : Char) : Bool :=
  isDigitChar c || ('a' ≤ c && c ≤ 'z') || ('A' ≤ c && c ≤ 'Z') || c = '-'

def parseNumericStrict (cs : List Char) : Option Nat :=
  if cs.isEmpty then none
  else if !cs.all isDigitChar then none
  else if 1 < cs.length ∧ cs.headD ' ' = '0' then none
  else some (cs.foldl (fun acc c => acc * 10 + digitVal c) 0)

def parsePreIdStrict (cs : List Char) : Option PreId :=
  if cs.isEmpty then none
  else if !cs.all isIdentChar then none
  else if cs.all isDigitChar then
    if 1 < cs.length ∧ cs.headD ' ' = '0' then none
    else some (.num (cs.foldl (fun acc c => acc * 10 + digitVal c) 0))
  else some (.str cs)

/-- Characters up to the first occurrence of `sep`, and the remainder after
it when present. -/
def splitFirst (sep : Char) : List Char → List Char × Option (List Char)
  | [] => ([], none)
  | c :: cs =>
    if c = sep then ([], some cs)
    else
      let r := splitFirst sep cs
      (c :: r.1, r.2)

def traverseOption {α β : Type} (f : α → Option β) : List α → Option (List β)
  | [] => some []
  | a :: as => do
    let b ← f a
    let bs ← traverseOption f as
    some (b :: bs)

def semverParseStrict (cs : List Char) : Option Version :=
  let (beforeBuild, build) := splitFirst '+' cs
  let buildOk := match build with
    | none => true
    | some b => !b.isEmpty && (splitOnChar '.' b).all (fun g => !g.isEmpty && g.all isIdentChar)
  if !buildOk then none
  else
    let (core, preMaybe) := splitFirst '-' beforeBuild
    match splitOnChar '.' core with
    | [ma, mi, pa] => do
      let major ← parseNumericStrict ma
      let minor ← parseNumericStrict mi
      let patch ← parseNumericStrict pa
      match preMaybe with
      | none => some { major, minor, patch, pre := [] }
      | some p => do
        let ids ← traverseOption parsePreIdStrict (splitOnChar '.' p)
        if ids.isEmpty then none else some { major, minor, patch, pre := ids }
    | _ => none

/-! ### Lenient version parsing (`VersionConstraint::parse_version`,
version.rs lines 136-154) -/

def parseVersionLenient (s0 : List Char) : Except VError Version :=
  let s := (trimChars s0).dropWhile (fun c => c = 'v')
  let parts := splitOnChar '.' s
  let versionStr :=
    match parts with
    | [p0] => p0 ++ ".0.0".toList
    | [p0, p1] => p0 ++ '.' :: p1 ++ ".0".toList
    | _ => s
  let base := (splitFirst '-' versionStr).1
  let base := (splitFirst '+' base).1
  match semverParseStrict base with
  | some v => .ok v
  | none =>
    match semverParseStrict versionStr with
    | some v => .ok v
    | none => .error (.invalidVersionConstraint (strOf s))

/-! ### Constraint parsing (`VersionConstraint::parse`, version.rs lines
32-133).  The source recurses on strictly shorter strings in the
space-conjunction and `||` branches; the model uses a fuel parameter
(`parseConstraint` supplies `length + 1`, which the recursion never
exhausts). -/

def parseConstraintAux : Nat → List Char → Except VError VersionConstraint
  | 0, s => .error (.invalidVersionConstraint (strOf s))
  | fuel + 1, s0 =>
    let s := trimChars s0
    if s.isEmpty || s = "*".toList || s = "latest".toList then .ok .any
    else if startsWithList s "workspace:".toList then .ok .any
    else if startsWithList s "npm:".toList || startsWithList s "file:".toList
        || startsWithList s "git".toList || containsList s "://".toList then .ok .any
    else
      let xRange : Option VersionConstraint :=
        if s.contains 'x' || s.contains 'X' then
          let cleaned := (s.map (fun c => if c = 'x' then '0' else c)).map
            (fun c => if c = 'X' then '0' else c)
          (semverParseStrict cleaned).map .caret
        else none
      match xRange with
      | some c => .ok c
      | none =>
        let spaceParts := splitWhitespaceList s
        if s.contains ' ' ∧ spaceParts.length = 2 then do
          let l ← parseConstraintAux fuel (spaceParts.headD [])
          let r ← parseConstraintAux fuel (spaceParts.getLastD [])
          .ok (.range l r)
        else if containsList s "||".toList then
          parseConstraintAux fuel (trimChars ((splitOnList "||".toList s).headD []))
        else
          let hyphenParts := splitOnList " - ".toList s
          if containsList s " - ".toList ∧ hyphenParts.length = 2 then do
            let l ← parseVersionLenient (trimChars (hyphenParts.headD []))
            let r ← parseVersionLenient (trimChars (hyphenParts.getLastD []))
            .ok (.range (.greaterOrEqual l) (.lessOrEqual r))
          else
            match dropLeading s ">=".toList with
            | some rest => (parseVersionLenient (trimChars rest)).map .greaterOrEqual
            | none =>
            match dropLeading s "<=".toList with
            | some rest => (parseVersionLenient (trimChars rest)).map .lessOrEqual
            | none =>
            match dropLeading s ">".toList with
            | some rest => (parseVersionLenient (trimChars rest)).map .greaterThan
            | none =>
            match dropLeading s "<".toList with
            | some rest => (parseVersionLenient (trimChars rest)).map .lessThan
            | none =>
            match dropLeading s "^".toList with
            | some rest => (parseVersionLenient (trimChars rest)).map .caret
            | none =>
            match dropLeading s "~".toList with
            | some rest => (parseVersionLenient (trimChars rest)).map .tilde
            | none =>
            match dropLeading s "=".toList with
            | some rest => (parseVersionLenient (trimChars rest)).map .exact
            | none =>
            match parseVersionLenient s with
            | .ok v => .ok (.exact v)
            | .error _ => .ok .any

/-- `VersionConstraint::parse` on a string. -/
def parseConstraint (s : String) : Except VError VersionConstraint :=
  parseConstraintAux (s.toList.length + 1) s.toList

/-! ### Rendering (`Display` impls used for error text and graph labels) -/

def natToChars (n : Nat) : List Char := (Nat.repr n).toList

def preIdToChars : PreId → List Char
  | .num n => natToChars n
  | .str s => s

def joinWith (sep : Char) : List (List Char) → List Char
  | [] => []
  | [g] => g
  | g :: gs => g ++ sep :: joinWith sep gs

def versionToChars (v : Version) : List Char :=
  natToChars v.major ++ '.' :: natToChars v.minor ++ '.' :: natToChars v.patch ++
    (if v.pre.isEmpty then [] else '-' :: joinWith '.' (v.pre.map preIdToChars))

def versionToString (v : Version) : String := strOf (versionToChars v)

def constraintToChars : VersionConstraint → List Char
  | .exact v => versionToChars v
  | .caret v => '^' :: versionToChars v
  | .tilde v => '~' :: versionToChars v
  | .greaterOrEqual v => '>' :: '=' :: versionToChars v
  | .greaterThan v => '>' :: versionToChars v
  | .lessOrEqual v => '<' :: '=' :: versionToChars v
  | .lessThan v => '<' :: versionToChars v
  | .any => ['*']
  | .latest => "latest".toList
  | .range l r => constraintToChars l ++ ' ' :: constraintToChars r

def constraintToString (c : VersionConstraint) : String := strOf (constraintToChars c)


instance {ε α : Type} [DecidableEq ε] [DecidableEq α] : DecidableEq (Except ε α) :=
  fun a b =>
    match a, b with
    | .ok x, .ok y =>
      if h : x = y then isTrue (by rw [h])
      else isFalse (by intro hh; cases hh; exact h rfl)
    | .error x, .error y =>
      if h : x = y then isTrue (by rw [h])
      else isFalse (by intro hh; cases hh; exact h rfl)
    | .ok _, .error _ => isFalse (by intro hh; cases hh)
    | .error _, .ok _ => isFalse (by intro hh; cases hh)

/-! ### Conflict policy (resolver/mod.rs lines 91-106)

When a package name already has a resolved version `existing` and a new
constraint selects `matching`, the source keeps `existing` when
`existing >= matching` (it `continue`s) and otherwise overwrites with the
new, higher version.  `pickHigher existing new` is the version recorded
after the second of the two constraints is processed. -/

def pickHigher (existing new : Version) : Version :=
  if new ≤ existing then existing else new

/-! ### Dependency graph (src/resolver/graph.rs)

Nodes are keyed by package name and labelled `name@version`; edges are
name pairs, deduplicated.  `hasCycle` models petgraph's
`is_cyclic_directed` (an external crate): it decides existence of a
directed cycle by bounded reachability.  `findCycle` models the source's
own `find_cycle` DFS (graph.rs lines 51-93). -/

structure DependencyGraph where
  nodes : List (String × String) := []
  edges : List (String × String) := []
deriving DecidableEq, Repr

def DependencyGraph.addPackage (g : DependencyGraph) (name version : String) :
    DependencyGraph :=
  if g.nodes.any (fun p => p.1 = name) then g
  else { g with nodes := g.nodes ++ [(name, name ++ "@" ++ version)] }

def DependencyGraph.addDependency (g : DependencyGraph) (src dst : String) :
    DependencyGraph :=
  if g.nodes.any (fun p => p.1 = src) && g.nodes.any (fun p => p.1 = dst)
      && !(g.edges.contains (src, dst)) then
    { g with edges := g.edges ++ [(src, dst)] }
  else g

def edgeSuccs (edges : List (String × String)) (n : String) : List String :=
  edges.filterMap (fun e => if e.1 = n then some e.2 else none)

/-- Is `goal` reachable from any of `starts` (using at least the edge into
`starts`)?  Fuel bounds path length; `nodes.length + 1` suffices. -/
def reachableAny (edges : List (String × String)) :
    Nat → List String → String → Bool
  | 0, _, _ => false
  | fuel + 1, starts, goal =>
    starts.any (fun t => t = goal || reachableAny edges fuel (edgeSuccs edges t) goal)

/-- Modelled from the spec: petgraph's `is_cyclic_directed` — whether the
graph contains a directed cycle. -/
def DependencyGraph.hasCycle (g : DependencyGraph) : Bool :=
  g.nodes.any (fun n =>
    reachableAny g.edges (g.nodes.length + 1) (edgeSuccs g.edges n.1) n.1)

def DependencyGraph.label (g : DependencyGraph) (n : String) : String :=
  ((g.nodes.find? (fun p => p.1 = n)).map (fun p => p.2)).getD ""

structure DfsState where
  visited : List String := []
  recStack : List String := []
  path : List String := []
deriving Repr

mutual
/-- `DependencyGraph::dfs_cycle` (graph.rs lines 68-93). -/
def dfsCycleAux (g : DependencyGraph) : Nat → String → DfsState → Bool × DfsState
  | 0, _, st => (false, st)
  | fuel + 1, node, st =>
    let st := { visited := st.visited ++ [node], recStack := st.recStack ++ [node],
                path := st.path ++ [g.label node] }
    match dfsNeighbors g fuel node (edgeSuccs g.edges node) st with
    | (true, st') => (true, st')
    | (false, st') =>
      (false, { st' with path := st'.path.dropLast,
                         recStack := st'.recStack.filter (fun x => x ≠ node) })
termination_by fuel _ _ => (fuel, 0, 0)

def dfsNeighbors (g : DependencyGraph) : Nat → String → List String → DfsState →
    Bool × DfsState
  | _, _, [], st => (false, st)
  | fuel, node, n :: ns, st =>
    if st.visited.contains n then
      if st.recStack.contains n then (true, { st with path := st.path ++ [g.label n] })
      else dfsNeighbors g fuel node ns st
    else
      match dfsCycleAux g fuel n st with
      | (true, st') => (true, st')
      | (false, st') => dfsNeighbors g fuel node ns st'
termination_by fuel _ ns _ => (fuel, 1, ns.length)
end

def findCycleAux (g : DependencyGraph) : List (String × String) → DfsState →
    Option (List String)
  | [], _ => none
  | (n, _) :: rest, st =>
    if st.visited.contains n then findCycleAux g rest st
    else
      match dfsCycleAux g (g.nodes.length + 1) n st with
      | (true, st') => some st'.path
      | (false, st') => findCycleAux g rest st'

/-- `DependencyGraph::find_cycle` (graph.rs lines 51-66). -/
def DependencyGraph.findCycle (g : DependencyGraph) : Option (List String) :=
  findCycleAux g g.nodes {}

def joinArrow : List String → String
  | [] => ""
  | [s] => s
  | s :: rest => s ++ " -> " ++ joinArrow rest

/-! ### Registry metadata (src/registry/types.rs, the fields the resolver
reads).  `hasInstallScripts` stores the result of
`VersionMetadata::has_install_scripts`. -/

structure VersionMeta where
  tarball : String := ""
  integrity : Option String := none
  dependencies : List (String × String) := []
  peerDependencies : List (String × String) := []
  optionalDependencies : List (String × String) := []
  hasInstallScripts : Bool := false
deriving DecidableEq, Repr

structure PackageMetadata where
  versions : List (String × VersionMeta) := []
deriving DecidableEq, Repr

/-- A registry: package name to metadata.  Hash-map iteration orders in
the source are represented by list order. -/
def Registry := List (String × PackageMetadata)

def lookupA {α : Type} (l : List (String × α)) (k : String) : Option α :=
  (l.find? (fun p => p.1 = k)).map (fun p => p.2)

def assocSet {α : Type} (l : List (String × α)) (k : String) (v : α) :
    List (String × α) :=
  if l.any (fun p => p.1 = k) then
    l.map (fun p => if p.1 = k then (k, v) else p)
  else l ++ [(k, v)]

/-! ### Resolver (src/resolver/mod.rs) -/

structure ResolvedPackage where
  name : String
  version : String
  tarballUrl : String
  integrity : String
  dependencies : List (String × String)
  peerDependencies : List (String × String)
  optionalDependencies : List (String × String)
  hasScripts : Bool
deriving DecidableEq, Repr

structure LockedPackage where
  name : String
  version : String
  resolved : String
  integrity : String
  dependencies : List String := []
  peerDependencies : List String := []
  optionalDependencies : List String := []
  hasScripts : Bool := false
  cpu : List String := []
  os : List String := []
deriving DecidableEq, Repr

/-- `Lockfile::add_package` (lockfile.rs lines 173-177): drop any entry
with the same `(name, version)`, then append. -/
def lockfileAddPackage (ps : List LockedPackage) (p : LockedPackage) :
    List LockedPackage :=
  (ps.filter (fun q => !(q.name = p.name && q.version = p.version))) ++ [p]

def lockedOf (r : ResolvedPackage) : LockedPackage :=
  { name := r.name, version := r.version, resolved := r.tarballUrl,
    integrity := r.integrity,
    dependencies := r.dependencies.map (fun d => d.1 ++ "@" ++ d.2),
    peerDependencies := r.peerDependencies.map (fun d => d.1),
    optionalDependencies := r.optionalDependencies.map (fun d => d.1),
    hasScripts := r.hasScripts }

/-- `Resolver::find_matching_version` (resolver/mod.rs lines 183-201):
parse every version key, keep those matching the constraint, sort
descending and take the first — i.e. the maximum under SemVer order. -/
def findMatchingVersion (versions : List (String × VersionMeta))
    (c : VersionConstraint) : Except VError String :=
  let matching := (versions.filterMap (fun kv => semverParseStrict kv.1.toList)).filter
    (fun v => c.matches v)
  match matching with
  | [] => .error (.invalidVersionConstraint (constraintToString c))
  | v :: vs => .ok (versionToString (vs.foldl (fun a b => if a ≤ b then b else a) v))

structure ResolveState where
  graph : DependencyGraph := {}
  lockfilePackages : List LockedPackage := []
  toInstall : List ResolvedPackage := []
  fromCache : List ResolvedPackage := []
  resolvedVersions : List (String × String) := []
  visited : List String := []
  /-- Instrumentation (not a source field): the order in which worklist
  items are actually processed, with their depths. -/
  procOrder : List (String × String × Nat) := []
deriving DecidableEq, Repr

/-- Processing of one popped worklist item (the body of the `while` loop
in `Resolver::resolve`, resolver/mod.rs lines 77-166).  Returns the new
state and queue; `rest` is the queue with the item already popped. -/
def resolveStep (reg : Registry) (cache : List (String × String))
    (st : ResolveState) (rest : List (String × String × Nat))
    (item : String × String × Nat) :
    Except VError (ResolveState × List (String × String × Nat)) :=
  let name := item.1
  let constraintStr := item.2.1
  let depth := item.2.2
  let cacheKey := name ++ "@" ++ constraintStr
  if st.visited.contains cacheKey then .ok (st, rest)
  else
    let st := { st with visited := st.visited ++ [cacheKey],
                        procOrder := st.procOrder ++ [item] }
    match lookupA reg name with
    | none => .error (.packageNotFound name)
    | some metadata =>
      match parseConstraint constraintStr with
      | .error e => .error e
      | .ok constraint =>
        match findMatchingVersion metadata.versions constraint with
        | .error e => .error e
        | .ok matching =>
          let keep : Bool :=
            match lookupA st.resolvedVersions name with
            | some existing =>
              if existing = matching then false
              else
                match semverParseStrict existing.toList,
                    semverParseStrict matching.toList with
                | some e, some n => decide (n ≤ e)
                | _, _ => false
            | none => false
          match keep with
          | true => .ok (st, rest)
          | false =>
            let st := { st with
              resolvedVersions := assocSet st.resolvedVersions name matching }
            match lookupA metadata.versions matching with
            | none => .error (.versionNotFound name matching)
            | some vm =>
              let resolved : ResolvedPackage :=
                { name, version := matching, tarballUrl := vm.tarball,
                  integrity := vm.integrity.getD "",
                  dependencies := vm.dependencies,
                  peerDependencies := vm.peerDependencies,
                  optionalDependencies := vm.optionalDependencies,
                  hasScripts := vm.hasInstallScripts }
              let g := st.graph.addPackage name matching
              let g := vm.dependencies.foldl
                (fun g d => g.addDependency name d.1) g
              let st := { st with graph := g }
              let st :=
                if cache.contains (name, matching) then
                  { st with fromCache := st.fromCache ++ [resolved] }
                else
                  { st with toInstall := st.toInstall ++ [resolved] }
              let st := { st with lockfilePackages :=
                lockfileAddPackage st.lockfilePackages (lockedOf resolved) }
              let newItems :=
                if depth < 100 then
                  (vm.dependencies ++ vm.optionalDependencies).map
                    (fun d => (d.1, d.2, depth + 1))
                else []
              .ok (st, rest ++ newItems)

/-- The final cycle check (resolver/mod.rs lines 168-179). -/
def resolveFinish (st : ResolveState) : Except VError ResolveState :=
  if st.graph.hasCycle then
    .error (.circularDependency (joinArrow (st.graph.findCycle.getD [])))
  else .ok st

/-- The resolver worklist loop.  The source pops from the back of a `Vec`
(`queue.pop()`, resolver/mod.rs line 77): last in, first out.  Fuel makes
the recursion structural; exhaustion yields a model-only error. -/
def resolveLoop (reg : Registry) (cache : List (String × String)) :
    Nat → ResolveState → List (String × String × Nat) →
    Except VError ResolveState
  | 0, st, q =>
    match q.getLast? with
    | none => resolveFinish st
    | some _ => .error .fuelExhausted
  | fuel + 1, st, q =>
    match q.getLast? with
    | none => resolveFinish st
    | some item =>
      match resolveStep reg cache st q.dropLast item with
      | .error e => .error e
      | .ok (st', q') => resolveLoop reg cache fuel st' q'

/-- `Resolver::resolve` (resolver/mod.rs lines 59-180). -/
def resolveModel (reg : Registry) (cache : List (String × String))
    (deps : List (String × String)) (fuel : Nat) : Except VError ResolveState :=
  resolveLoop reg cache fuel {} (deps.map (fun d => (d.1, d.2, 0)))


/-! ### Tarball extraction (src/installer/extractor.rs)

Only the per-entry logic of `Extractor::extract` is modelled: the
path-traversal check, the `package/`-prefix strip, and which entries get
their file written.  Filesystem preliminaries (tarball presence, the
already-extracted short-circuit) are outside the model.  `Path::is_absolute`
is modelled for POSIX (a leading `/`). -/

structure TarEntry where
  path : String
  isFile : Bool := true
deriving DecidableEq, Repr

def nulChar : Char := Char.ofNat 0

/-- `Extractor::check_path_traversal` (extractor.rs lines 105-133). -/
def checkPathTraversal (path : String) (package : String) : Except VError Unit :=
  if containsList path.toList "..".toList then
    .error (.pathTraversal package path)
  else if path.toList.headD ' ' = '/' then
    .error (.pathTraversal package path)
  else if path.toList.contains nulChar then
    .error (.pathTraversal package "null byte in path")
  else .ok ()

def stripPackagePre (p : List Char) : List Char :=
  match dropLeading p "package/".toList with
  | some r => r
  | none =>
    match dropLeading p "package".toList with
    | some r => r
    | none => p

/-- The extraction loop over (indexed) archive entries.  Returns the
written files — `(entry index, relative path)` pairs — together with the
final result; the loop stops at the first failing entry. -/
def extractLoop (package : String) :
    List (Nat × TarEntry) → List (Nat × String) →
    List (Nat × String) × Except VError Unit
  | [], written => (written, .ok ())
  | (i, e) :: rest, written =>
    match checkPathTraversal e.path package with
    | .error err => (written, .error err)
    | .ok _ =>
      let written :=
        if e.isFile then written ++ [(i, strOf (stripPackagePre e.path.toList))]
        else written
      extractLoop package rest written

def extractModel (package : String) (entries : List TarEntry) :
    List (Nat × String) × Except VError Unit :=
  extractLoop package entries.enum []

/-! ### SHA-256, SHA-1, SHA-512 over byte lists (`Nat`s below 256), with
words as `Nat` reduced mod 2^32 / 2^64.  These model the `sha2`/`sha1`
crates the source calls. -/

def w32 (n : Nat) : Nat := n % 4294967296

def rotr32 (x n : Nat) : Nat := w32 ((x >>> n) ||| (x <<< (32 - n)))

def rotl32 (x n : Nat) : Nat := w32 ((x <<< n) ||| (x >>> (32 - n)))

def w64 (n : Nat) : Nat := n % 18446744073709551616

def rotr64 (x n : Nat) : Nat := w64 ((x >>> n) ||| (x <<< (64 - n)))

/-- Big-endian bytes of an `n`-byte integer. -/
def beBytes : Nat → Nat → List Nat
  | 0, _ => []
  | k + 1, v => (v >>> (8 * k)) % 256 :: beBytes k v

def sha2Pad (lenBytes : Nat) (msg : List Nat) : List Nat :=
  let L := msg.length
  let z := (2 * lenBytes - ((L + 1 + lenBytes / 8) % lenBytes)) % lenBytes
  msg ++ 128 :: List.replicate z 0 ++ beBytes (lenBytes / 8) (8 * L)

def toWordsBEAux (bytesPerWord : Nat) : Nat → List Nat → List Nat
  | 0, _ => []
  | _ + 1, [] => []
  | fuel + 1, b :: rest =>
    ((b :: rest).take bytesPerWord).foldl (fun acc x => acc * 256 + x) 0 ::
      toWordsBEAux bytesPerWord fuel (rest.drop (bytesPerWord - 1))

def toWordsBE (bytesPerWord : Nat) (bs : List Nat) : List Nat :=
  toWordsBEAux bytesPerWord (bs.length + 1) bs

def chunksAux (size : Nat) : Nat → List Nat → List (List Nat)
  | 0, _ => []
  | _ + 1, [] => []
  | fuel + 1, b :: rest =>
    (b :: rest).take size :: chunksAux size fuel ((b :: rest).drop size)

def chunksOf (size : Nat) (l : List Nat) : List (List Nat) :=
  chunksAux size (l.length + 1) l

def k256 : List Nat :=
  [1116352408, 1899447441, 3049323471, 3921009573, 961987163, 1508970993,
   2453635748, 2870763221, 3624381080, 310598401, 607225278, 1426881987,
   1925078388, 2162078206, 2614888103, 3248222580, 3835390401, 4022224774,
   264347078, 604807628, 770255983, 1249150122, 1555081692, 1996064986,
   2554220882, 2821834349, 2952996808, 3210313671, 3336571891, 3584528711,
   113926993, 338241895, 666307205, 773529912, 1294757372, 1396182291,
   1695183700, 1986661051, 2177026350, 2456956037, 2730485921, 2820302411,
   3259730800, 3345764771, 3516065817, 3600352804, 4094571909, 275423344,
   430227734, 506948616, 659060556, 883997877, 958139571, 1322822218,
   1537002063, 1747873779, 1955562222, 2024104815, 2227730452, 2361852424,
   2428436474, 2756734187, 3204031479, 3329325298]

def h256 : List Nat :=
  [1779033703, 3144134277, 1013904242, 2773480762,
   1359893119, 2600822924, 528734635, 1541459225]

def mask32 : Nat := 4294967295

def smallSigma0 (x : Nat) : Nat := rotr32 x 7 ^^^ rotr32 x 18 ^^^ (x >>> 3)

def smallSigma1 (x : Nat) : Nat := rotr32 x 17 ^^^ rotr32 x 19 ^^^ (x >>> 10)

def bigSigma0 (x : Nat) : Nat := rotr32 x 2 ^^^ rotr32 x 13 ^^^ rotr32 x 22

def bigSigma1 (x : Nat) : Nat := rotr32 x 6 ^^^ rotr32 x 11 ^^^ rotr32 x 25

def extendSchedule256 : Nat → List Nat → List Nat
  | 0, ws => ws
  | n + 1, ws =>
    let t := ws.length
    extendSchedule256 n (ws ++ [w32 (smallSigma1 (ws.getD (t - 2) 0) +
      ws.getD (t - 7) 0 + smallSigma0 (ws.getD (t - 15) 0) + ws.getD (t - 16) 0)])

def round256 (st : List Nat) (kw : Nat × Nat) : List Nat :=
  match st with
  | [a, b, c, d, e, f, g, h] =>
    let ch := (e &&& f) ^^^ ((e ^^^ mask32) &&& g)
    let maj := (a &&& b) ^^^ (a &&& c) ^^^ (b &&& c)
    let t1 := w32 (h + bigSigma1 e + ch + kw.1 + kw.2)
    let t2 := w32 (bigSigma0 a + maj)
    [w32 (t1 + t2), a, b, c, w32 (d + t1), e, f, g]
  | o => o

def processBlock256 (h : List Nat) (block : List Nat) : List Nat :=
  let ws := extendSchedule256 48 (toWordsBE 4 block)
  let final := (k256.zip ws).foldl round256 h
  (h.zip final).map (fun p => w32 (p.1 + p.2))

def sha256Bytes (msg : List Nat) : List Nat :=
  let hh := (chunksOf 64 (sha2Pad 64 msg)).foldl processBlock256 h256
  hh.foldr (fun w acc => beBytes 4 w ++ acc) []

def h1init : List Nat := [1732584193, 4023233417, 2562383102, 271733878, 3285377520]

def extendSchedule1 : Nat → List Nat → List Nat
  | 0, ws => ws
  | n + 1, ws =>
    let t := ws.length
    extendSchedule1 n (ws ++ [rotl32 (ws.getD (t - 3) 0 ^^^ ws.getD (t - 8) 0 ^^^
      ws.getD (t - 14) 0 ^^^ ws.getD (t - 16) 0) 1])

def round1 (st : List Nat) (tw : Nat × Nat) : List Nat :=
  match st with
  | [a, b, c, d, e] =>
    let t := tw.1
    let f :=
      if t < 20 then (b &&& c) ||| ((b ^^^ mask32) &&& d)
      else if t < 40 then b ^^^ c ^^^ d
      else if t < 60 then (b &&& c) ||| (b &&& d) ||| (c &&& d)
      else b ^^^ c ^^^ d
    let k :=
      if t < 20 then 1518500249
      else if t < 40 then 1859775393
      else if t < 60 then 2400959708
      else 3395469782
    let temp := w32 (rotl32 a 5 + f + e + k + tw.2)
    [temp, a, rotl32 b 30, c, d]
  | o => o

def processBlock1 (h : List Nat) (block : List Nat) : List Nat :=
  let ws := extendSchedule1 64 (toWordsBE 4 block)
  let final := ws.enum.foldl round1 h
  (h.zip final).map (fun p => w32 (p.1 + p.2))

def sha1Bytes (msg : List Nat) : List Nat :=
  let hh := (chunksOf 64 (sha2Pad 64 msg)).foldl processBlock1 h1init
  hh.foldr (fun w acc => beBytes 4 w ++ acc) []

def k512 : List Nat :=
  [4794697086780616226, 8158064640168781261, 13096744586834688815, 16840607885511220156,
   4131703408338449720, 6480981068601479193, 10538285296894168987, 12329834152419229976,
   15566598209576043074, 1334009975649890238, 2608012711638119052, 6128411473006802146,
   8268148722764581231, 9286055187155687089, 11230858885718282805, 13951009754708518548,
   16472876342353939154, 17275323862435702243, 1135362057144423861, 2597628984639134821,
   3308224258029322869, 5365058923640841347, 6679025012923562964, 8573033837759648693,
   10970295158949994411, 12119686244451234320, 12683024718118986047, 13788192230050041572,
   14330467153632333762, 15395433587784984357, 489312712824947311, 1452737877330783856,
   2861767655752347644, 3322285676063803686, 5560940570517711597, 5996557281743188959,
   7280758554555802590, 8532644243296465576, 9350256976987008742, 10552545826968843579,
   11727347734174303076, 12113106623233404929, 14000437183269869457, 14369950271660146224,
   15101387698204529176, 15463397548674623760, 17586052441742319658, 1182934255886127544,
   1847814050463011016, 2177327727835720531, 2830643537854262169, 3796741975233480872,
   4115178125766777443, 5681478168544905931, 6601373596472566643, 7507060721942968483,
   8399075790359081724, 8693463985226723168, 9568029438360202098, 10144078919501101548,
   10430055236837252648, 11840083180663258601, 13761210420658862357, 14299343276471374635,
   14566680578165727644, 15097957966210449927, 16922976911328602910, 17689382322260857208,
   500013540394364858, 748580250866718886, 1242879168328830382, 1977374033974150939,
   2944078676154940804, 3659926193048069267, 4368137639120453308, 4836135668995329356,
   5532061633213252278, 6448918945643986474, 6902733635092675308, 7801388544844847127]

def h512 : List Nat :=
  [7640891576956012808, 13503953896175478587, 4354685564936845355, 11912009170470909681,
   5840696475078001361, 11170449401992604703, 2270897969802886507, 6620516959819538809]

def mask64 : Nat := 18446744073709551615

def smallSig512_0 (x : Nat) : Nat := rotr64 x 1 ^^^ rotr64 x 8 ^^^ (x >>> 7)

def smallSig512_1 (x : Nat) : Nat := rotr64 x 19 ^^^ rotr64 x 61 ^^^ (x >>> 6)

def bigSig512_0 (x : Nat) : Nat := rotr64 x 28 ^^^ rotr64 x 34 ^^^ rotr64 x 39

def bigSig512_1 (x : Nat) : Nat := rotr64 x 14 ^^^ rotr64 x 18 ^^^ rotr64 x 41

def extendSchedule512 : Nat → List Nat → List Nat
  | 0, ws => ws
  | n + 1, ws =>
    let t := ws.length
    extendSchedule512 n (ws ++ [w64 (smallSig512_1 (ws.getD (t - 2) 0) +
      ws.getD (t - 7) 0 + smallSig512_0 (ws.getD (t - 15) 0) + ws.getD (t - 16) 0)])

def round512 (st : List Nat) (kw : Nat × Nat) : List Nat :=
  match st with
  | [a, b, c, d, e, f, g, h] =>
    let ch := (e &&& f) ^^^ ((e ^^^ mask64) &&& g)
    let maj := (a &&& b) ^^^ (a &&& c) ^^^ (b &&& c)
    let t1 := w64 (h + bigSig512_1 e + ch + kw.1 + kw.2)
    let t2 := w64 (bigSig512_0 a + maj)
    [w64 (t1 + t2), a, b, c, w64 (d + t1), e, f, g]
  | o => o

def processBlock512 (h : List Nat) (block : List Nat) : List Nat :=
  let ws := extendSchedule512 64 (toWordsBE 8 block)
  let final := (k512.zip ws).foldl round512 h
  (h.zip final).map (fun p => w64 (p.1 + p.2))

def sha512Bytes (msg : List Nat) : List Nat :=
  let hh := (chunksOf 128 (sha2Pad 128 msg)).foldl processBlock512 h512
  hh.foldr (fun w acc => beBytes 8 w ++ acc) []

/-! ### base64 (standard alphabet with padding, the `base64` crate's
`STANDARD` engine) and lowercase hex (the `hex` crate). -/

def b64Alphabet : List Char :=
  "ABCDEFGHIJKLMNOPQRSTUVWXYZabcdefghijklmnopqrstuvwxyz0123456789+/".toList

def b64Char (n : Nat) : Char := b64Alphabet.getD n 'A'

def base64Encode : List Nat → List Char
  | [] => []
  | [a] => [b64Char (a >>> 2), b64Char ((a &&& 3) <<< 4), '=', '=']
  | [a, b] =>
    [b64Char (a >>> 2), b64Char (((a &&& 3) <<< 4) ||| (b >>> 4)),
     b64Char ((b &&& 15) <<< 2), '=']
  | a :: b :: c :: rest =>
    b64Char (a >>> 2) :: b64Char (((a &&& 3) <<< 4) ||| (b >>> 4)) ::
      b64Char (((b &&& 15) <<< 2) ||| (c >>> 6)) :: b64Char (c &&& 63) ::
        base64Encode rest

def hexDigit (n : Nat) : Char := "0123456789abcdef".toList.getD n '0'

def hexEncode : List Nat → List Char
  | [] => []
  | b :: rest => hexDigit (b >>> 4) :: hexDigit (b &&& 15) :: hexEncode rest

/-- UTF-8 bytes of an ASCII string (all strings the theorems feed through
hashing are ASCII). -/
def stringBytes (s : String) : List Nat := s.toList.map Char.toNat


/-! ### Integrity checker (src/security/integrity.rs) -/

/-- `IntegrityChecker::parse_integrity` (integrity.rs lines 54-71). -/
def parseIntegrity (integrity : String) : Except VError (String × String) :=
  match dropLeading integrity.toList "sha512-".toList with
  | some hash => .ok ("sha512", strOf hash)
  | none =>
    match dropLeading integrity.toList "sha256-".toList with
    | some hash => .ok ("sha256", strOf hash)
    | none =>
      match dropLeading integrity.toList "sha1-".toList with
      | some hash => .ok ("sha1", strOf hash)
      | none => .error (.other ("Unsupported integrity format: " ++ integrity))

/-- `IntegrityChecker::compute_hash` (integrity.rs lines 74-94).  Note the
catch-all arm: any algorithm other than `sha512`/`sha256` — including
`sha1`, which `parse_integrity` accepts — yields the empty string. -/
def computeHash (data : List Nat) (algorithm : String) : String :=
  if algorithm = "sha512" then strOf (base64Encode (sha512Bytes data))
  else if algorithm = "sha256" then strOf (base64Encode (sha256Bytes data))
  else ""

/-- `IntegrityChecker::verify_detailed` (integrity.rs lines 24-45). -/
def verifyDetailed (data : List Nat) (integrity : String) (package : String) :
    Except VError Unit :=
  if integrity = "" then .ok ()
  else
    match parseIntegrity integrity with
    | .error e => .error e
    | .ok algoExpected =>
      let computed := computeHash data algoExpected.1
      if computed ≠ algoExpected.2 then
        .error (.integrityCheckFailed package algoExpected.2 computed)
      else .ok ()

/-- `IntegrityChecker::compute` (integrity.rs lines 48-51). -/
def computeIntegrityString (data : List Nat) (algorithm : String) : String :=
  algorithm ++ "-" ++ computeHash data algorithm

/-! ### Lockfile codec (src/core/lockfile.rs)

The lockfile is serialized with the external `toml` crate.  The model
implements the crate's deterministic rendering for exactly the shapes a
`Lockfile` value can take: top-level scalars in struct-field order
(`version`, then `integrity` when present, then `packages = []` when the
package list is empty), `[[packages]]` array-of-table sections, and
`[workspaces.<key>]` table sections emitted in map-iteration order, which
the model represents by list order (the source's `HashMap` iterates in an
unspecified, seed-dependent order).  `toml::to_string` renders nonempty
string arrays inline; `toml::to_string_pretty` (used by `save`) renders
them one element per line.  String escaping is not modelled: the values
the theorems use contain no characters needing escapes. -/

structure WorkspacePackage where
  path : String
  version : String
  dependencies : List String := []
deriving DecidableEq, Repr

structure Lockfile where
  version : Nat := 1
  integrity : Option String := none
  packages : List LockedPackage := []
  workspaces : List (String × WorkspacePackage) := []
deriving DecidableEq, Repr

def tq (s : String) : String := "\"" ++ s ++ "\""

def tomlArrayInline (xs : List String) : String :=
  "[" ++ String.intercalate ", " (xs.map tq) ++ "]"

def tomlArrayPretty (xs : List String) : String :=
  match xs with
  | [] => "[]"
  | _ => "[\n" ++ String.join (xs.map (fun x => "    " ++ tq x ++ ",\n")) ++ "]"

def optArrayLine (arr : List String → String) (key : String) (xs : List String) :
    String :=
  if xs.isEmpty then "" else key ++ " = " ++ arr xs ++ "\n"

def lockedPackageBody (arr : List String → String) (p : LockedPackage) : String :=
  "name = " ++ tq p.name ++ "\n" ++
  "version = " ++ tq p.version ++ "\n" ++
  "resolved = " ++ tq p.resolved ++ "\n" ++
  "integrity = " ++ tq p.integrity ++ "\n" ++
  optArrayLine arr "dependencies" p.dependencies ++
  optArrayLine arr "peer_dependencies" p.peerDependencies ++
  optArrayLine arr "optional_dependencies" p.optionalDependencies ++
  (if p.hasScripts then "has_scripts = true\n" else "") ++
  optArrayLine arr "cpu" p.cpu ++
  optArrayLine arr "os" p.os

def workspaceBody (arr : List String → String) (w : WorkspacePackage) : String :=
  "path = " ++ tq w.path ++ "\n" ++
  "version = " ++ tq w.version ++ "\n" ++
  "dependencies = " ++ arr w.dependencies ++ "\n"

/-- `toml` serialization of a `Lockfile` value; `arr` renders nonempty
string arrays (inline for `to_string`, multiline for `to_string_pretty`). -/
def tomlOfLockfile (arr : List String → String) (l : Lockfile) : String :=
  "version = " ++ Nat.repr l.version ++ "\n" ++
  (match l.integrity with
   | some s => "integrity = " ++ tq s ++ "\n"
   | none => "") ++
  (if l.packages.isEmpty then "packages = []\n" else "") ++
  String.join (l.packages.map
    (fun p => "\n[[packages]]\n" ++ lockedPackageBody arr p)) ++
  String.join (l.workspaces.map
    (fun kv => "\n[workspaces." ++ kv.1 ++ "]\n" ++ workspaceBody arr kv.2))

/-- `Lockfile::compute_integrity` (lockfile.rs lines 149-158): SHA-256 of
the non-pretty serialization with the integrity field elided. -/
def lockfileIntegrity (l : Lockfile) : String :=
  "sha256-" ++ strOf (hexEncode (sha256Bytes
    (stringBytes (tomlOfLockfile tomlArrayInline { l with integrity := none }))))

/-- The comparator of `Lockfile::save`'s sort (lockfile.rs lines 132-134):
lexicographic on `(name, version)` (byte order, which equals `List Char`
order on these strings). -/
def pkgLe (a b : LockedPackage) : Prop :=
  toLex (a.name.toList, a.version.toList) ≤ toLex (b.name.toList, b.version.toList)

instance : DecidableRel pkgLe := fun a b =>
  inferInstanceAs (Decidable (toLex (a.name.toList, a.version.toList) ≤
    toLex (b.name.toList, b.version.toList)))

instance : IsTotal LockedPackage pkgLe :=
  ⟨fun a b => le_total (toLex (a.name.toList, a.version.toList))
    (toLex (b.name.toList, b.version.toList))⟩

instance : IsTrans LockedPackage pkgLe :=
  ⟨fun _ _ _ hab hbc => le_trans hab hbc⟩

/-- The sort in `Lockfile::save`.  Rust's `sort_by` is a stable sort; any
two stable sorts under the same total preorder agree, so the model uses
insertion sort. -/
def sortPackages (ps : List LockedPackage) : List LockedPackage :=
  List.insertionSort pkgLe ps

/-- The file content `Lockfile::save` (lockfile.rs lines 130-146) writes:
sort the packages, compute the self-integrity over the integrity-elided
non-pretty serialization, then pretty-serialize with the integrity set. -/
def saveContent (l : Lockfile) : String :=
  let sorted := { l with packages := sortPackages l.packages }
  let integ := lockfileIntegrity sorted
  tomlOfLockfile tomlArrayPretty { sorted with integrity := some integ }

/-! #### A `toml::from_str` model for the subset of documents `load` meets
in the theorems: top-level `key = value` lines (integer, quoted string, or
the empty array), blank lines and `#` comments.  Any other shape — table
headers included — is rejected (`none`), standing for the general parser
only on this subset. -/

def parseQuotedChars (cs : List Char) : Option String :=
  match cs with
  | '"' :: rest =>
    match rest.reverse with
    | '"' :: mid =>
      let inner := mid.reverse
      if inner.all (fun c => c ≠ '"' && c ≠ '\\') then some (strOf inner) else none
    | _ => none
  | _ => none

def parseTomlValueLine (cs : List Char) : Option (String × (Option Nat × Option String × Bool)) :=
  match splitFirst '=' cs with
  | (_, none) => none
  | (rawKey, some rawVal) =>
    let key := trimChars rawKey
    let val := trimChars rawVal
    if key.isEmpty then none
    else if val = "[]".toList then some (strOf key, (none, none, true))
    else
      match parseNat? val with
      | some n => some (strOf key, (some n, none, false))
      | none =>
        match parseQuotedChars val with
        | some s => some (strOf key, (none, some s, false))
        | none => none

structure TomlAcc where
  version : Option Nat := none
  integrity : Option String := none
  packagesEmpty : Bool := false
  failed : Bool := false

def tomlLineStep (acc : TomlAcc) (line : List Char) : TomlAcc :=
  if acc.failed then acc
  else
    let t := trimChars line
    if t.isEmpty then acc
    else if t.headD ' ' = '#' then acc
    else
      match parseTomlValueLine t with
      | none => { acc with failed := true }
      | some kv =>
        if kv.1 = "version" then
          match kv.2.1 with
          | some n => { acc with version := some n }
          | none => { acc with failed := true }
        else if kv.1 = "integrity" then
          match kv.2.2.1 with
          | some s => { acc with integrity := some s }
          | none => { acc with failed := true }
        else if kv.1 = "packages" then
          if kv.2.2.2 then { acc with packagesEmpty := true }
          else { acc with failed := true }
        else { acc with failed := true }

def parseTomlLockfile (content : String) : Option Lockfile :=
  let acc := (splitOnChar '\n' content.toList).foldl tomlLineStep {}
  if acc.failed then none
  else
    match acc.version with
    | none => none
    | some v => some { version := v, integrity := acc.integrity }

/-- `Lockfile::load` (lockfile.rs lines 109-127), given the file content
(the file-absent case returns `none` before reading and is not modelled). -/
def loadModel (content : String) : Except VError (Option Lockfile) :=
  match parseTomlLockfile content with
  | none => .error .tomlDeserialize
  | some lf =>
    match lf.integrity with
    | some stored =>
      if lockfileIntegrity lf ≠ stored then .error .invalidLockfile
      else .ok (some lf)
    | none => .ok (some lf)

/-! ### Supply-chain guard (src/security/supply_chain.rs)

`POPULAR_PACKAGES` is a `HashSet` in the source, iterated in an
unspecified per-process order; the model fixes the declaration order of
supply_chain.rs lines 8-26. -/

def popularPackages : List String :=
  ["react", "react-dom", "next", "vue", "svelte", "angular",
   "express", "fastify", "koa", "hono", "nestjs",
   "lodash", "underscore", "ramda", "axios", "ky", "got",
   "moment", "dayjs", "date-fns", "uuid", "nanoid",
   "webpack", "vite", "rollup", "esbuild", "parcel", "turbo",
   "typescript", "babel", "eslint", "prettier",
   "jest", "vitest", "mocha", "chai", "cypress", "playwright",
   "prisma", "drizzle", "sequelize", "mongoose", "typeorm",
   "ethers", "web3", "viem", "wagmi", "hardhat",
   "openai", "langchain", "anthropic", "pinecone"]

def toLowerStr (s : String) : String := strOf (s.toList.map Char.toLower)

/-- `SupplyChainGuard::levenshtein` (supply_chain.rs lines 155-180): the
standard dynamic program, computed row by row. -/
def levenshtein (a b : List Char) : Nat :=
  let m := a.length
  let n := b.length
  if m = 0 then n
  else if n = 0 then m
  else
    let firstRow := List.range (n + 1)
    let lastRow := a.enum.foldl
      (fun prev ica =>
        let i := ica.1 + 1
        let step := (b.zip (prev.zip (prev.drop 1))).foldl
          (fun (st : Nat × List Nat) x =>
            let cost := if ica.2 = x.1 then 0 else 1
            let cur := Nat.min (Nat.min (x.2.2 + 1) (st.1 + 1)) (x.2.1 + cost)
            (cur, st.2 ++ [cur]))
          (i, [i])
        step.2)
      firstRow
    lastRow.getLastD 0

inductive TyposquatSeverity where
  | high
  | medium
deriving DecidableEq, Repr

structure TyposquatWarning where
  suspicious : String
  similarTo : String
  distance : Nat
  severity : TyposquatSeverity
deriving DecidableEq, Repr

/-- The scan loop of `SupplyChainGuard::check_typosquat` (supply_chain.rs
lines 60-84): stop with `none` at the first exact match, stop with a
warning at the first entry within distance 1..2. -/
def checkTyposquatAux (name normalized : String) :
    List String → Option TyposquatWarning
  | [] => none
  | popular :: rest =>
    if popular = normalized then none
    else
      let distance := levenshtein normalized.toList popular.toList
      if 0 < distance ∧ distance ≤ 2 then
        some { suspicious := name, similarTo := popular, distance,
               severity := if distance = 1 then .high else .medium }
      else checkTyposquatAux name normalized rest

def checkTyposquat (name : String) : Option TyposquatWarning :=
  checkTyposquatAux name (toLowerStr name) popularPackages

def suspiciousPatterns : List String :=
  ["-internal", "-private", "-corp", "-company", "-test", "-dev", "-debug",
   "-backup", "copy-of-", "fork-of-", "-clone"]

/-- `SupplyChainGuard::check_suspicious_name` (supply_chain.rs 87-104),
reduced to the matched pattern. -/
def checkSuspiciousName (name : String) : Option String :=
  suspiciousPatterns.find?
    (fun p => containsList (toLowerStr name).toList p.toList)

inductive RiskLevel where
  | low
  | medium
  | high
deriving DecidableEq, Repr

/-- The risk-level computation of `SupplyChainGuard::analyze`
(supply_chain.rs lines 107-126). -/
def analyzeRisk (name : String) : RiskLevel :=
  let typosquat := checkTyposquat name
  let suspicious := checkSuspiciousName name
  if (typosquat.map (fun t => t.severity == TyposquatSeverity.high)).getD false then
    .high
  else if typosquat.isSome || suspicious.isSome then .medium
  else .low


/-! ### Claim-side formulas and concrete fixtures -/

/-- The caret semantics as the specification states them (C2): the claim's
three cases, written disjunctively so the proposition is decidable. -/
def caretClaimFormula (b v : Version) : Prop :=
  (b.major ≠ 0 ∧ b ≤ v ∧ v < ⟨b.major + 1, 0, 0, []⟩)
  ∨ (b.major = 0 ∧ b.minor ≠ 0 ∧ b ≤ v ∧ v < ⟨0, b.minor + 1, 0, []⟩)
  ∨ (b.major = 0 ∧ b.minor = 0 ∧ v.major = 0 ∧ v.minor = 0 ∧ v.patch = b.patch)

/-- The caret semantics the source actually implements (amended C2): for a
nonzero major the upper bound `< (X+1).0.0` holds but additionally the
major must be equal, which excludes pre-releases of `(X+1).0.0`; for
`0.Y.Z` the minor must be equal and the patch at least `Z`, pre-release
tags being ignored. -/
def caretAmendedFormula (b v : Version) : Prop :=
  (b.major ≠ 0 ∧ b ≤ v ∧ v < ⟨b.major + 1, 0, 0, []⟩ ∧ v.major = b.major)
  ∨ (b.major = 0 ∧ b.minor ≠ 0 ∧ v.major = 0 ∧ v.minor = b.minor ∧ b.patch ≤ v.patch)
  ∨ (b.major = 0 ∧ b.minor = 0 ∧ v.major = 0 ∧ v.minor = 0 ∧ v.patch = b.patch)

instance (b v : Version) : Decidable (caretClaimFormula b v) := by
  unfold caretClaimFormula; infer_instance

instance (b v : Version) : Decidable (caretAmendedFormula b v) := by
  unfold caretAmendedFormula; infer_instance

/-- The path predicate of claim C4: contains `..`, is absolute, or has a
NUL byte. -/
def badPath (path : String) : Bool :=
  containsList path.toList "..".toList || path.toList.headD ' ' = '/'
    || path.toList.contains nulChar

/-- BFS/FIFO processing as claim C9 states it: depths never decrease along
the processing order. -/
def depthNondecreasing (l : List (String × String × Nat)) : Prop :=
  l.Pairwise (fun x y => x.2.2 ≤ y.2.2)

instance (l : List (String × String × Nat)) : Decidable (depthNondecreasing l) := by
  unfold depthNondecreasing; exact List.instDecidablePairwise l

/-- The registry of spec scenario 4: `a@1 → b@1 → a@1`. -/
def regCyc : Registry :=
  [("a", { versions := [("1.0.0",
      { tarball := "https://r/a.tgz", dependencies := [("b", "1.0.0")] })] }),
   ("b", { versions := [("1.0.0",
      { tarball := "https://r/b.tgz", dependencies := [("a", "1.0.0")] })] })]

/-- A registry where root `b` has a transitive child `c` while root `a` has
none, exposing the worklist order. -/
def reg9 : Registry :=
  [("a", { versions := [("1.0.0", {})] }),
   ("b", { versions := [("1.0.0", { dependencies := [("c", "1.0.0")] })] }),
   ("c", { versions := [("1.0.0", {})] })]

/-- A tar archive with one benign entry followed by a traversal attempt. -/
def cexEntries : List TarEntry :=
  [{ path := "package/ok.txt" }, { path := "../evil" }]

def wsA : WorkspacePackage := { path := "pkgs/a", version := "1.0.0" }

def wsB : WorkspacePackage := { path := "pkgs/b", version := "2.0.0" }

/-- Two lockfiles holding the same logical workspace set in the two
possible hash-map iteration orders. -/
def lock6a : Lockfile := { workspaces := [("a", wsA), ("b", wsB)] }

def lock6b : Lockfile := { workspaces := [("b", wsB), ("a", wsA)] }


/-! ## Theorems -/

/-! ### Helper lemmas -/

theorem version_major_lt (v : Version) (m : Nat) (h : v.major < m) :
    v < ⟨m, 0, 0, []⟩ := by
  rw [Version.lt_def, Version.encode, Version.encode]
  rw [Prod.Lex.lt_iff]
  exact Or.inl h

theorem pickHigher_eq_max (a b : Version) : pickHigher a b = max a b := by
  unfold pickHigher
  by_cases hba : b ≤ a
  · rw [if_pos hba]
    exact (max_eq_left hba).symm
  · rw [if_neg hba]
    exact (max_eq_right (le_of_not_le hba)).symm

/-! ### C2 — caret matching semantics -/

/-- C2, counterexample: for `^1.0.0` and `v = 2.0.0-alpha` the claimed
characterization `v ≥ 1.0.0 ∧ v < 2.0.0` holds (SemVer places the
pre-release below `2.0.0`), but `matches` rejects `v` because the source
additionally requires `v.major == 1` (version.rs line 171). -/
theorem c2_caret_claim_counterexample :
    ¬ (((VersionConstraint.caret ⟨1, 0, 0, []⟩).matches
        ⟨2, 0, 0, [PreId.str "alpha".toList]⟩ = true) ↔
      caretClaimFormula ⟨1, 0, 0, []⟩ ⟨2, 0, 0, [PreId.str "alpha".toList]⟩) := by
  decide

/-- C2, amended: `Caret(X.Y.Z).matches v` holds iff — for `X > 0` —
`v ≥ X.Y.Z`, `v < (X+1).0.0` *and* `v.major = X` (pre-releases of
`(X+1).0.0` are excluded); for `X = 0, Y > 0` iff `v.major = 0`,
`v.minor = Y` and `v.patch ≥ Z` (pre-release tags ignored); and for
`X = Y = 0` iff `v` has major 0, minor 0 and patch exactly `Z`. -/
theorem c2_caret_matches_amended (b v : Version) :
    (VersionConstraint.caret b).matches v = true ↔ caretAmendedFormula b v := by
  unfold caretAmendedFormula
  simp only [VersionConstraint.matches]
  by_cases h0 : b.major = 0
  · rw [if_pos h0]
    by_cases h1 : b.minor = 0
    · rw [if_pos h1]
      simp [h0, h1]
    · rw [if_neg h1]
      simp [h0, h1]
  · rw [if_neg h0]
    simp only [decide_eq_true_eq]
    constructor
    · rintro ⟨hm, hle⟩
      exact Or.inl ⟨h0, hle, version_major_lt v (b.major + 1) (by omega), hm⟩
    · rintro (⟨_, hle, _, hm⟩ | ⟨h, _⟩ | ⟨h, _⟩)
      · exact ⟨hm, hle⟩
      · exact absurd h h0
      · exact absurd h h0


/-! ### C3 — higher-wins conflict rule -/

theorem le_foldArg_left (a b : Version) : a ≤ if a ≤ b then b else a := by
  by_cases h : a ≤ b
  · rw [if_pos h]; exact h
  · rw [if_neg h]

theorem le_foldArg_right (a b : Version) : b ≤ if a ≤ b then b else a := by
  by_cases h : a ≤ b
  · rw [if_pos h]
  · rw [if_neg h]; exact le_of_not_le h

theorem foldl_pick_ub : ∀ (vs : List Version) (v u : Version), u ∈ v :: vs →
    u ≤ vs.foldl (fun a b => if a ≤ b then b else a) v := by
  intro vs
  induction vs with
  | nil =>
    intro v u hu
    rw [List.mem_singleton.mp hu]
    exact le_refl v
  | cons b bs ih =>
    intro v u hu
    simp only [List.foldl_cons]
    have hinit := ih (if v ≤ b then b else v) (if v ≤ b then b else v)
      (List.mem_cons_self _ _)
    rcases List.mem_cons.mp hu with h | h
    · subst h
      exact le_trans (le_foldArg_left u b) hinit
    · rcases List.mem_cons.mp h with h2 | h2
      · subst h2
        exact le_trans (le_foldArg_right v u) hinit
      · exact ih _ u (List.mem_cons_of_mem _ h2)

theorem foldl_pick_mem : ∀ (vs : List Version) (v : Version),
    vs.foldl (fun a b => if a ≤ b then b else a) v ∈ v :: vs := by
  intro vs
  induction vs with
  | nil =>
    intro v
    exact List.mem_singleton.mpr rfl
  | cons b bs ih =>
    intro v
    simp only [List.foldl_cons]
    by_cases hvb : v ≤ b
    · rw [if_pos hvb]
      rcases List.mem_cons.mp (ih b) with h | h
      · rw [h]
        exact List.mem_cons_of_mem _ (List.mem_cons_self _ _)
      · exact List.mem_cons_of_mem _ (List.mem_cons_of_mem _ h)
    · rw [if_neg hvb]
      rcases List.mem_cons.mp (ih v) with h | h
      · rw [h]
        exact List.mem_cons_self _ _
      · exact List.mem_cons_of_mem _ (List.mem_cons_of_mem _ h)


/-- C3: when two constraints on the same name select versions `v₁` and
`v₂`, the version recorded after both are processed is the result of the
keep-or-overwrite rule of resolver/mod.rs lines 91-106 (`pickHigher`); it
equals `max(v₁, v₂)` under SemVer order, and the rule is commutative and
associative, so the selection is independent of arrival order.  The final
conjunct shows the fold used by `findMatchingVersion` (the model of
sort-descending-take-first) indeed selects the maximum of the satisfied
version set: an upper bound that is a member. -/
theorem c3_conflict_higher_wins (v1 v2 v3 : Version) :
    pickHigher v1 v2 = max v1 v2 ∧
    pickHigher v1 v2 = pickHigher v2 v1 ∧
    pickHigher (pickHigher v1 v2) v3 = pickHigher v1 (pickHigher v2 v3) ∧
    (∀ (v : Version) (vs : List Version),
      (∀ u ∈ v :: vs, u ≤ vs.foldl (fun a b => if a ≤ b then b else a) v) ∧
      vs.foldl (fun a b => if a ≤ b then b else a) v ∈ v :: vs) := by
  refine ⟨pickHigher_eq_max v1 v2, ?_, ?_, ?_⟩
  · rw [pickHigher_eq_max, pickHigher_eq_max, max_comm]
  · rw [pickHigher_eq_max, pickHigher_eq_max, pickHigher_eq_max, pickHigher_eq_max,
      max_assoc]
  · exact fun v vs => ⟨fun u hu => foldl_pick_ub vs v u hu, foldl_pick_mem vs v⟩

/-! ### C1 — cycle detection -/

theorem resolveFinish_ok {st res : ResolveState} (h : resolveFinish st = .ok res) :
    res.graph.hasCycle = false := by
  unfold resolveFinish at h
  by_cases hc : st.graph.hasCycle = true
  · rw [if_pos hc] at h
    cases h
  · rw [if_neg hc] at h
    cases h
    exact Bool.not_eq_true _ ▸ (Bool.of_not_eq_true hc)

/-- C1: `resolve` returns `Ok` only with `has_cycle() == false` (the final
check of resolver/mod.rs lines 168-172) — but on the spec's canonical
cyclic registry `a@1 → b@1 → a@1` it *succeeds*: when `a` is processed,
`add_dependency("a","b")` is dropped because `b` is not yet a node
(graph.rs line 37), so the emitted graph has only the edge `b → a`, no
cycle is found, and no `CircularDependency` is raised. -/
theorem c1_cycle_detection :
    (∀ (reg : Registry) (cache : List (String × String)) (fuel : Nat)
        (st : ResolveState) (q : List (String × String × Nat)) (res : ResolveState),
      resolveLoop reg cache fuel st q = .ok res → res.graph.hasCycle = false) ∧
    (resolveModel regCyc [] [("a", "1.0.0")] 20).map
        (fun st => (st.graph.hasCycle, st.graph.edges)) = .ok (false, [("b", "a")]) := by
  constructor
  · intro reg cache fuel
    induction fuel with
    | zero =>
      intro st q res h
      simp only [resolveLoop] at h
      cases hq : q.getLast? with
      | none => rw [hq] at h; exact resolveFinish_ok h
      | some item => rw [hq] at h; cases h
    | succ n ih =>
      intro st q res h
      simp only [resolveLoop] at h
      cases hq : q.getLast? with
      | none => rw [hq] at h; exact resolveFinish_ok h
      | some item =>
        rw [hq] at h
        dsimp only at h
        cases hs : resolveStep reg cache st q.dropLast item with
        | error e => rw [hs] at h; cases h
        | ok p =>
          obtain ⟨st', q'⟩ := p
          rw [hs] at h
          exact ih st' q' res h
  · decide

/-- Witness for the universally quantified half of `c1_cycle_detection`:
an acyclic registry resolves to `Ok`, and the theorem yields
`has_cycle() == false` for its graph. -/
theorem c1_cycle_detection_witness :
    (resolveModel reg9 [] [("a", "1.0.0"), ("b", "1.0.0")] 20).map
        (fun st => st.graph.hasCycle) = .ok false := by
  obtain ⟨res, hres⟩ :
      ∃ res, resolveModel reg9 [] [("a", "1.0.0"), ("b", "1.0.0")] 20 = .ok res :=
    ⟨_, rfl⟩
  rw [hres, Except.map, c1_cycle_detection.1 reg9 [] 20 {} _ res hres]

/-! ### C9 — worklist order -/

/-- C9, counterexample: with roots `a, b` (in that worklist order) where
`b@1.0.0` depends on `c@1.0.0`, the resolver processes `b` (depth 0), then
`c` (depth 1), then `a` (depth 0): the item enqueued at depth 1 is
processed before a root enqueued at depth 0, refuting FIFO/BFS order. -/
theorem c9_bfs_counterexample :
    (resolveModel reg9 [] [("a", "1.0.0"), ("b", "1.0.0")] 20).map
        (fun st => st.procOrder) =
      .ok [("b", "1.0.0", 0), ("c", "1.0.0", 1), ("a", "1.0.0", 0)] ∧
    ¬ depthNondecreasing [("b", "1.0.0", 0), ("c", "1.0.0", 1), ("a", "1.0.0", 0)] := by
  decide

/-- C9, amended: the worklist is a stack — `queue.pop()` takes the *most
recently pushed* item (resolver/mod.rs line 77), so traversal is
last-in-first-out (depth-first): the children a processed package pushes
are handled before any earlier-enqueued items; `depth` only caps recursion
at 100. -/
theorem c9_lifo_amended (reg : Registry) (cache : List (String × String))
    (fuel : Nat) (st : ResolveState) (q : List (String × String × Nat))
    (item : String × String × Nat) :
    resolveLoop reg cache (fuel + 1) st (q ++ [item]) =
      match resolveStep reg cache st q item with
      | .error e => .error e
      | .ok (st', q') => resolveLoop reg cache fuel st' q' := by
  simp only [resolveLoop, List.getLast?_concat, List.dropLast_concat]


/-! ### C4 — path-traversal defense -/

theorem checkPathTraversal_bad (path pkg : String) (h : badPath path = true) :
    ∃ p, checkPathTraversal path pkg = .error (.pathTraversal pkg p) := by
  unfold badPath at h
  unfold checkPathTraversal
  by_cases h1 : containsList path.toList "..".toList = true
  · rw [if_pos h1]
    exact ⟨path, rfl⟩
  · rw [if_neg h1]
    by_cases h2 : path.toList.headD ' ' = '/'
    · rw [if_pos h2]
      exact ⟨path, rfl⟩
    · rw [if_neg h2]
      by_cases h3 : path.toList.contains nulChar = true
      · rw [if_pos h3]
        exact ⟨"null byte in path", rfl⟩
      · exfalso
        simp only [Bool.or_eq_true] at h
        rcases h with (h | h) | h
        · exact h1 h
        · exact h2 (by simpa using h)
        · exact h3 h

theorem checkPathTraversal_error_shape (path pkg : String) (err : VError)
    (h : checkPathTraversal path pkg = .error err) :
    ∃ p, err = .pathTraversal pkg p := by
  unfold checkPathTraversal at h
  split_ifs at h with h1 h2 h3
  · exact ⟨path, by cases h; rfl⟩
  · exact ⟨path, by cases h; rfl⟩
  · exact ⟨"null byte in path", by cases h; rfl⟩

theorem extractLoop_bad (pkg : String) (i : Nat) (e : TarEntry)
    (hbad : badPath e.path = true) :
    ∀ (l : List (Nat × TarEntry)) (written : List (Nat × String)),
      (i, e) ∈ l → (l.map Prod.fst).Nodup →
      (∃ p, (extractLoop pkg l written).2 = .error (.pathTraversal pkg p)) ∧
      (∀ s, (i, s) ∈ (extractLoop pkg l written).1 → (i, s) ∈ written) := by
  intro l
  induction l with
  | nil =>
    intro written hmem _
    cases hmem
  | cons hd tl ih =>
    intro written hmem hnodup
    obtain ⟨j, e'⟩ := hd
    have hnodup2 : j ∉ tl.map Prod.fst ∧ (tl.map Prod.fst).Nodup := by
      rw [List.map_cons] at hnodup
      exact List.nodup_cons.mp hnodup
    rcases List.mem_cons.mp hmem with heq | hmem'
    · injection heq with h1 h2
      subst h1
      subst h2
      obtain ⟨p, hp⟩ := checkPathTraversal_bad e.path pkg hbad
      simp only [extractLoop, hp]
      exact ⟨⟨p, rfl⟩, fun s hs => hs⟩
    · have hji : j ≠ i := fun hji =>
        hnodup2.1 (hji ▸ List.mem_map_of_mem Prod.fst hmem')
      simp only [extractLoop]
      cases hc : checkPathTraversal e'.path pkg with
      | error err =>
        obtain ⟨p, hp⟩ := checkPathTraversal_error_shape e'.path pkg err hc
        exact ⟨⟨p, by rw [hp]⟩, fun s hs => hs⟩
      | ok u =>
        cases u
        have h := ih
          (if e'.isFile then written ++ [(j, strOf (stripPackagePre e'.path.toList))]
           else written) hmem' hnodup2.2
        refine ⟨h.1, fun s hs => ?_⟩
        have h2 := h.2 s hs
        by_cases hf : e'.isFile = true
        · rw [if_pos hf] at h2
          rcases List.mem_append.mp h2 with hw | hnew
          · exact hw
          · exfalso
            exact hji (congrArg Prod.fst (List.mem_singleton.mp hnew)).symm
        · rw [if_neg hf] at h2
          exact h2

/-- C4: every tar entry whose path contains `..`, is absolute, or contains
a NUL byte makes extraction fail with a `PathTraversal` error for that
package (the first offending entry's path — for the NUL case the literal
text `"null byte in path"` — is reported), and no file is written for such
an entry. -/
theorem c4_extract_path_traversal (package : String) (entries : List TarEntry)
    (i : Nat) (e : TarEntry) (hmem : (i, e) ∈ entries.enum)
    (hbad : badPath e.path = true) :
    (∃ p, (extractModel package entries).2 = .error (.pathTraversal package p)) ∧
    ∀ s, (i, s) ∉ (extractModel package entries).1 := by
  have hnodup : (entries.enum.map Prod.fst).Nodup := by
    rw [List.enum_map_fst]
    exact List.nodup_range _
  have h := extractLoop_bad package i e hbad entries.enum [] hmem hnodup
  exact ⟨h.1, fun s hs => by simpa using h.2 s hs⟩

/-- Witness for `c4_extract_path_traversal` at a concrete archive. -/
theorem c4_extract_path_traversal_witness :
    ((extractModel "pkg" cexEntries).2 = .error (.pathTraversal "pkg" "../evil")) ∧
    (1, "../evil") ∉ (extractModel "pkg" cexEntries).1 := by
  refine ⟨by decide, ?_⟩
  exact (c4_extract_path_traversal "pkg" cexEntries 1 { path := "../evil" }
    (by decide) (by decide)).2 "../evil"


/-! ### C5 — lockfile tamper detection -/

/-- C5, counterexample: appending a newline to the saved lockfile is a
byte-level mutation yielding a different file, yet `load` succeeds — the
mutated file parses to the same value, so the recomputed integrity still
matches the stored one, and no `InvalidLockfile` is raised. -/
theorem c5_lockfile_mutation_counterexample :
    saveContent {} ++ "\n" ≠ saveContent {} ∧
    loadModel (saveContent {} ++ "\n") =
      .ok (some { version := 1, integrity := some (lockfileIntegrity {}) }) := by
  decide

/-- C5, amended: for a file that parses, `load` fails with
`InvalidLockfile` precisely when a stored integrity is present and differs
from the recomputed one; a matching integrity, or an absent integrity
field, loads successfully (lockfile.rs lines 119-124). -/
theorem c5_load_integrity_amended (content : String) (lf : Lockfile)
    (hp : parseTomlLockfile content = some lf) :
    (∀ s, lf.integrity = some s → lockfileIntegrity lf ≠ s →
      loadModel content = .error .invalidLockfile) ∧
    (∀ s, lf.integrity = some s → lockfileIntegrity lf = s →
      loadModel content = .ok (some lf)) ∧
    (lf.integrity = none → loadModel content = .ok (some lf)) := by
  unfold loadModel
  rw [hp]
  dsimp only
  refine ⟨?_, ?_, ?_⟩
  · intro s hs hne
    rw [hs]
    dsimp only
    rw [if_pos hne]
  · intro s hs heq
    rw [hs]
    dsimp only
    rw [if_neg (fun h => h heq)]
  · intro hs
    rw [hs]

/-- Witness for `c5_load_integrity_amended`: a lockfile whose stored
integrity is the literal `bad` is rejected. -/
theorem c5_load_integrity_amended_witness :
    loadModel "version = 1\nintegrity = \"bad\"\npackages = []\n" =
      .error .invalidLockfile := by
  exact (c5_load_integrity_amended
    "version = 1\nintegrity = \"bad\"\npackages = []\n"
    { version := 1, integrity := some "bad" } (by decide)).1 "bad" rfl (by decide)

/-! ### C6 — lockfile determinism -/

theorem string_toList_inj {s t : String} (h : s.toList = t.toList) : s = t := by
  cases s
  cases t
  exact congrArg String.mk h

theorem sortPackages_sorted_strict (l : List LockedPackage)
    (hn : (l.map (fun p => (p.name, p.version))).Nodup) :
    List.Sorted (fun a b : LockedPackage =>
      toLex (a.name.toList, a.version.toList) <
        toLex (b.name.toList, b.version.toList)) (sortPackages l) := by
  have hsort : List.Sorted pkgLe (sortPackages l) :=
    List.sorted_insertionSort pkgLe l
  have hnodup2 : ((sortPackages l).map (fun p => (p.name, p.version))).Nodup :=
    (((List.perm_insertionSort pkgLe l).map
      (fun p => (p.name, p.version))).nodup_iff).mpr hn
  have hpair_ne : (sortPackages l).Pairwise
      (fun a b => (a.name, a.version) ≠ (b.name, b.version)) := by
    rw [List.Nodup, List.pairwise_map] at hnodup2
    exact hnodup2
  refine (List.Pairwise.and hsort hpair_ne).imp ?_
  rintro a b ⟨hle, hne⟩
  refine lt_of_le_of_ne hle ?_
  intro heq
  apply hne
  have h2 : (a.name.toList, a.version.toList) = (b.name.toList, b.version.toList) :=
    toLex_inj.mp heq
  exact Prod.ext_iff.mpr
    ⟨string_toList_inj (congrArg Prod.fst h2),
     string_toList_inj (congrArg Prod.snd h2)⟩

theorem sortPackages_eq_of_perm (l1 l2 : List LockedPackage)
    (hperm : l1.Perm l2)
    (hn : (l1.map (fun p => (p.name, p.version))).Nodup) :
    sortPackages l1 = sortPackages l2 := by
  haveI : IsAntisymm LockedPackage (fun a b : LockedPackage =>
      toLex (a.name.toList, a.version.toList) <
        toLex (b.name.toList, b.version.toList)) :=
    ⟨fun _ _ h1 h2 => absurd h2 (lt_asymm h1)⟩
  refine List.eq_of_perm_of_sorted ?_ (sortPackages_sorted_strict l1 hn)
    (sortPackages_sorted_strict l2 ?_)
  · exact (List.perm_insertionSort pkgLe l1).trans
      (hperm.trans (List.perm_insertionSort pkgLe l2).symm)
  · exact ((hperm.map (fun p => (p.name, p.version))).nodup_iff).mp hn

/-- C6, amended: `save` output is a pure function of the lockfile value
with packages sorted lexicographically by `(name, version)` — byte
identical across runs for the same logical package set *provided* the
package entries have pairwise distinct `(name, version)` keys and the
workspace map serializes in the same order; the counterexample shows the
workspace hash-map order breaking byte identity. -/
theorem c6_save_deterministic (l1 l2 : Lockfile)
    (hv : l1.version = l2.version) (hw : l1.workspaces = l2.workspaces)
    (hperm : l1.packages.Perm l2.packages)
    (hn : (l1.packages.map (fun p => (p.name, p.version))).Nodup) :
    saveContent l1 = saveContent l2 ∧
    List.Sorted pkgLe (sortPackages l1.packages) := by
  obtain ⟨v1, i1, p1, w1⟩ := l1
  obtain ⟨v2, i2, p2, w2⟩ := l2
  dsimp only at hv hw hperm hn
  subst hv
  subst hw
  have hs : sortPackages p1 = sortPackages p2 := sortPackages_eq_of_perm p1 p2 hperm hn
  constructor
  · unfold saveContent lockfileIntegrity
    dsimp only
    rw [hs]
  · exact List.sorted_insertionSort pkgLe p1

/-- C6, counterexample: two lockfiles with the same logical workspace set
(a permutation — the two possible `HashMap` iteration orders) and equal
packages produce different `save` bytes. -/
theorem c6_workspace_order_counterexample :
    lock6a.workspaces.Perm lock6b.workspaces ∧
    lock6a.packages = lock6b.packages ∧
    lock6a.version = lock6b.version ∧
    saveContent lock6a ≠ saveContent lock6b := by
  refine ⟨?_, rfl, rfl, by decide⟩
  decide

/-- Witness for `c6_save_deterministic` at two concrete permuted package
lists. -/
theorem c6_save_deterministic_witness :
    saveContent { packages := [
      { name := "b", version := "1.0.0", resolved := "rb", integrity := "ib" },
      { name := "a", version := "1.0.0", resolved := "ra", integrity := "ia" }] } =
    saveContent { packages := [
      { name := "a", version := "1.0.0", resolved := "ra", integrity := "ia" },
      { name := "b", version := "1.0.0", resolved := "rb", integrity := "ib" }] } := by
  exact (c6_save_deterministic _ _ rfl rfl (by decide) (by decide)).1

/-! ### C7 — integrity round-trip -/

theorem toList_append (s t : String) : (s ++ t).toList = s.toList ++ t.toList :=
  String.data_append s t

theorem strOf_toList (s : String) : strOf s.toList = s := rfl

theorem dropLeading_append (p s : List Char) : dropLeading (p ++ s) p = some s := by
  induction p with
  | nil => simp [dropLeading]
  | cons c cs ih => simp [dropLeading, ih]

theorem prefixed_ne_empty (pre d : String) (hp : pre.toList ≠ []) :
    pre ++ d ≠ "" := by
  intro h
  have h2 := congrArg String.toList h
  rw [toList_append] at h2
  exact hp (List.append_eq_nil.mp h2).1

theorem parseIntegrity_sha512 (d : String) :
    parseIntegrity ("sha512-" ++ d) = .ok ("sha512", d) := by
  unfold parseIntegrity
  rw [toList_append, dropLeading_append]
  dsimp only
  rw [strOf_toList]

theorem parseIntegrity_sha256 (d : String) :
    parseIntegrity ("sha256-" ++ d) = .ok ("sha256", d) := by
  unfold parseIntegrity
  rw [toList_append]
  have hm : dropLeading ("sha256-".toList ++ d.toList) "sha512-".toList = none := rfl
  rw [hm, dropLeading_append]
  dsimp only
  rw [strOf_toList]

theorem parseIntegrity_sha1 (d : String) :
    parseIntegrity ("sha1-" ++ d) = .ok ("sha1", d) := by
  unfold parseIntegrity
  rw [toList_append]
  have hm1 : dropLeading ("sha1-".toList ++ d.toList) "sha512-".toList = none := rfl
  have hm2 : dropLeading ("sha1-".toList ++ d.toList) "sha256-".toList = none := rfl
  rw [hm1, hm2, dropLeading_append]
  dsimp only
  rw [strOf_toList]

theorem computeHash_sha1 (data : List Nat) : computeHash data "sha1" = "" := rfl

/-- C7, amended: the `verify`/`compute` round-trip holds for `sha512` and
`sha256` — the correct digest passes and any differing digest fails with
`IntegrityCheckFailed` — but *not* for `sha1`: `compute_hash` falls
through to the empty string for `sha1` (integrity.rs line 92), so a
`sha1-<d>` integrity verifies exactly when `d` is empty; in particular the
genuine sha1 digest is rejected and the empty digest is accepted. -/
theorem c7_integrity_roundtrip_amended :
    (∀ (data : List Nat) (p : String),
      verifyDetailed data ("sha512-" ++ computeHash data "sha512") p = .ok ()) ∧
    (∀ (data : List Nat) (d p : String), d ≠ computeHash data "sha512" →
      verifyDetailed data ("sha512-" ++ d) p =
        .error (.integrityCheckFailed p d (computeHash data "sha512"))) ∧
    (∀ (data : List Nat) (p : String),
      verifyDetailed data ("sha256-" ++ computeHash data "sha256") p = .ok ()) ∧
    (∀ (data : List Nat) (d p : String), d ≠ computeHash data "sha256" →
      verifyDetailed data ("sha256-" ++ d) p =
        .error (.integrityCheckFailed p d (computeHash data "sha256"))) ∧
    (∀ (data : List Nat) (d p : String),
      verifyDetailed data ("sha1-" ++ d) p =
        if d = "" then .ok () else .error (.integrityCheckFailed p d "")) := by
  refine ⟨?_, ?_, ?_, ?_, ?_⟩
  · intro data p
    unfold verifyDetailed
    rw [if_neg (prefixed_ne_empty "sha512-" _ (by decide)), parseIntegrity_sha512]
    dsimp only
    rw [if_neg (fun h => h rfl)]
  · intro data d p hd
    unfold verifyDetailed
    rw [if_neg (prefixed_ne_empty "sha512-" _ (by decide)), parseIntegrity_sha512]
    dsimp only
    rw [if_pos (fun h => hd h.symm)]
  · intro data p
    unfold verifyDetailed
    rw [if_neg (prefixed_ne_empty "sha256-" _ (by decide)), parseIntegrity_sha256]
    dsimp only
    rw [if_neg (fun h => h rfl)]
  · intro data d p hd
    unfold verifyDetailed
    rw [if_neg (prefixed_ne_empty "sha256-" _ (by decide)), parseIntegrity_sha256]
    dsimp only
    rw [if_pos (fun h => hd h.symm)]
  · intro data d p
    unfold verifyDetailed
    rw [if_neg (prefixed_ne_empty "sha1-" _ (by decide)), parseIntegrity_sha1]
    dsimp only
    rw [computeHash_sha1]
    by_cases hd : d = ""
    · subst hd
      rw [if_neg (fun h => h rfl), if_pos rfl]
    · rw [if_pos (fun h => hd h.symm), if_neg hd]

/-- C7, counterexample: `sha1Bytes` is genuine SHA-1 (FIPS 180 test
vectors hold), yet verifying a byte string against its correct
`sha1-<base64 digest>` integrity fails, because `compute_hash` returns
`""` for sha1. -/
theorem c7_sha1_roundtrip_counterexample :
    verifyDetailed (stringBytes "a")
        ("sha1-" ++ strOf (base64Encode (sha1Bytes (stringBytes "a")))) "pkg" =
      .error (.integrityCheckFailed "pkg"
        (strOf (base64Encode (sha1Bytes (stringBytes "a")))) "") ∧
    strOf (base64Encode (sha1Bytes (stringBytes "a"))) ≠ "" := by
  decide

/-- Witness for `c7_integrity_roundtrip_amended` at concrete inputs. -/
theorem c7_integrity_roundtrip_amended_witness :
    verifyDetailed [97] ("sha512-" ++ computeHash [97] "sha512") "p" = .ok () ∧
    verifyDetailed [97] ("sha512-" ++ "x") "p" =
      .error (.integrityCheckFailed "p" "x" (computeHash [97] "sha512")) ∧
    verifyDetailed [97] ("sha1-" ++ "") "p" = .ok () := by
  refine ⟨c7_integrity_roundtrip_amended.1 [97] "p", ?_, ?_⟩
  · exact c7_integrity_roundtrip_amended.2.1 [97] "x" "p" (by decide)
  · have h := c7_integrity_roundtrip_amended.2.2.2.2 [97] "" "p"
    rw [h, if_pos rfl]


/-! ### C8 — x-range parsing -/

/-- C8: the two-component x-range `1.x` is *not* parsed to `Caret(1.0.0)`:
replacing `x` with `0` yields `1.0`, which the strict SemVer parser
rejects, so the x-range branch (version.rs lines 50-56) falls through and
the final fallback returns `Any` — `2.0.0` therefore satisfies `1.x`.
The three-component form `1.0.x` does produce `Caret(1.0.0)`, which
rejects `2.0.0`. -/
theorem c8_xrange_parse :
    parseConstraint "1.x" = .ok .any ∧
    parseConstraint "1.0.x" = .ok (.caret ⟨1, 0, 0, []⟩) ∧
    VersionConstraint.any.matches ⟨2, 0, 0, []⟩ = true ∧
    semverParseStrict "1.0".toList = none ∧
    (VersionConstraint.caret ⟨1, 0, 0, []⟩).matches ⟨2, 0, 0, []⟩ = false := by
  exact ⟨rfl, rfl, rfl, rfl, by decide⟩

/-! ### C10 — typosquat detection -/

theorem checkTyposquatAux_skip (name norm : String) :
    ∀ pre : List String,
      (∀ q ∈ pre, q ≠ norm ∧
        ¬(0 < levenshtein norm.toList q.toList ∧
          levenshtein norm.toList q.toList ≤ 2)) →
      ∀ rest, checkTyposquatAux name norm (pre ++ rest) =
        checkTyposquatAux name norm rest := by
  intro pre
  induction pre with
  | nil => intro _ rest; rfl
  | cons q qs ih =>
    intro hpre rest
    have hq := hpre q (List.mem_cons_self q qs)
    have hqs := fun r hr => hpre r (List.mem_cons_of_mem q hr)
    simp only [List.cons_append, checkTyposquatAux]
    rw [if_neg hq.1, if_neg hq.2]
    exact ih hqs rest

/-- C10, amended: `check_typosquat` scans the popular list and stops at
the *first* entry that is an exact match of `lowercase(name)` (no
warning) or lies within Levenshtein distance 1..2 (High severity at
distance 1, Medium at distance 2); a name with no exact match and minimum
distance at least 3 gets no warning.  An exact match or distance-1 entry
*later* in the scan order does not override an earlier distance-2 entry,
and the `HashSet` scan order is unspecified (the model fixes declaration
order). -/
theorem c10_typosquat_scan_amended :
    (∀ (name : String) (pre : List String) (p : String) (post : List String),
      popularPackages = pre ++ p :: post →
      (∀ q ∈ pre, q ≠ toLowerStr name ∧
        ¬(0 < levenshtein (toLowerStr name).toList q.toList ∧
          levenshtein (toLowerStr name).toList q.toList ≤ 2)) →
      (p = toLowerStr name ∨
        (0 < levenshtein (toLowerStr name).toList p.toList ∧
         levenshtein (toLowerStr name).toList p.toList ≤ 2)) →
      checkTyposquat name =
        if p = toLowerStr name then none
        else some { suspicious := name, similarTo := p,
                    distance := levenshtein (toLowerStr name).toList p.toList,
                    severity :=
                      if levenshtein (toLowerStr name).toList p.toList = 1
                      then TyposquatSeverity.high else TyposquatSeverity.medium }) ∧
    (∀ name : String,
      (∀ q ∈ popularPackages, q ≠ toLowerStr name ∧
        ¬(0 < levenshtein (toLowerStr name).toList q.toList ∧
          levenshtein (toLowerStr name).toList q.toList ≤ 2)) →
      checkTyposquat name = none) := by
  constructor
  · intro name pre p post hdec hpre hrel
    unfold checkTyposquat
    rw [hdec, checkTyposquatAux_skip name (toLowerStr name) pre hpre (p :: post)]
    simp only [checkTyposquatAux]
    by_cases hp : p = toLowerStr name
    · rw [if_pos hp, if_pos hp]
    · rw [if_neg hp, if_neg hp]
      rcases hrel with h | h
      · exact absurd h hp
      · rw [if_pos h]
  · intro name h
    unfold checkTyposquat
    have hskip := checkTyposquatAux_skip name (toLowerStr name) popularPackages h []
    rw [List.append_nil] at hskip
    exact hskip

/-- C10, counterexample: `viem` is itself a popular-list entry, yet it is
reported as a Medium typosquat of `vue` (scanned earlier, distance 2);
and `hon` is at distance 1 from the entry `hono`, yet it is reported
Medium against `koa` (scanned earlier, distance 2) instead of High. -/
theorem c10_typosquat_counterexample :
    "viem" ∈ popularPackages ∧
    checkTyposquat "viem" = some { suspicious := "viem", similarTo := "vue",
                                   distance := 2, severity := .medium } ∧
    levenshtein (toLowerStr "hon").toList "hono".toList = 1 ∧
    "hono" ∈ popularPackages ∧
    checkTyposquat "hon" = some { suspicious := "hon", similarTo := "koa",
                                  distance := 2, severity := .medium } := by
  decide

/-- Witness for `c10_typosquat_scan_amended` at concrete names. -/
theorem c10_typosquat_scan_amended_witness :
    checkTyposquat "reacr" = some { suspicious := "reacr", similarTo := "react",
                                    distance := 1, severity := .high } ∧
    checkTyposquat "qqqqqqqqqq" = none := by
  constructor
  · have h := c10_typosquat_scan_amended.1 "reacr" [] "react" popularPackages.tail
      rfl (by simp) (Or.inr (by decide))
    rw [h]
    decide
  · exact c10_typosquat_scan_amended.2 "qqqqqqqqqq" (by decide)

end Velocity
